import Mathlib

/-!
Verification of the voice2clip push-to-talk pipeline: a shallow
embedding of `src/push_to_talk.py` (class `PushToTalk`).

Strings are modelled as `List Char` over the ASCII fragment: the Python
regex classes `\d` and `\s`, `str.split()`, `str.strip()` and
`str.lower()` are modelled by their ASCII behaviour, which is the
fragment exercised by the program (timestamp digits, whitespace, the
hard-coded word lists and punctuation sets are all ASCII).
-/

namespace Voice2Clip

/-- Python `\s` / `str.split()` whitespace, ASCII fragment:
space, tab, newline, carriage return, vertical tab, form feed. -/
def pyIsSpace (c : Char) : Bool :=
  c == ' ' || c == '\t' || c == '\n' || c == '\r' || c == '\x0b' || c == '\x0c'

/-- Python `str.lower()` on the ASCII fragment: maps each of the 26
uppercase letters to its lowercase counterpart, fixes everything else. -/
def pyToLower (c : Char) : Char :=
  if c = 'A' then 'a' else if c = 'B' then 'b' else if c = 'C' then 'c'
  else if c = 'D' then 'd' else if c = 'E' then 'e' else if c = 'F' then 'f'
  else if c = 'G' then 'g' else if c = 'H' then 'h' else if c = 'I' then 'i'
  else if c = 'J' then 'j' else if c = 'K' then 'k' else if c = 'L' then 'l'
  else if c = 'M' then 'm' else if c = 'N' then 'n' else if c = 'O' then 'o'
  else if c = 'P' then 'p' else if c = 'Q' then 'q' else if c = 'R' then 'r'
  else if c = 'S' then 's' else if c = 'T' then 't' else if c = 'U' then 'u'
  else if c = 'V' then 'v' else if c = 'W' then 'w' else if c = 'X' then 'x'
  else if c = 'Y' then 'y' else if c = 'Z' then 'z' else c

/-- Python `\d`, ASCII fragment: the ten decimal digits. -/
def pyIsDigit (c : Char) : Bool :=
  c == '0' || c == '1' || c == '2' || c == '3' || c == '4' ||
  c == '5' || c == '6' || c == '7' || c == '8' || c == '9'

/-- The character set of `text.strip(' .,!?;-')` (line 382). -/
def stripSetChar (c : Char) : Bool :=
  c == ' ' || c == '.' || c == ',' || c == '!' || c == '?' || c == ';' || c == '-'

/-- The character class of the final rejection regex
`^[\d\s\.,!?;:]*$` (line 414), ASCII fragment. -/
def digitsPunctChar (c : Char) : Bool :=
  pyIsDigit c || pyIsSpace c || c == '.' || c == ',' || c == '!' || c == '?' ||
    c == ';' || c == ':'

/-- `re.match(r'^[\d\s\.,!?;:]*$', text)` succeeds (line 414).
(`$` also matches before a final newline in Python, but `\n` is already
in the class, so whole-string matching is equivalent.) -/
def onlyDigitsPunct (l : List Char) : Bool := l.all digitsPunctChar

/-- Match the regex `\d{2}:\d{2}:\d{2}` (line 378) at the head of the
list; on success return the remainder after the 8 consumed characters. -/
def matchTs2 : List Char → Option (List Char)
  | c0 :: c1 :: c2 :: c3 :: c4 :: c5 :: c6 :: c7 :: rest =>
    if pyIsDigit c0 && pyIsDigit c1 && c2 == ':' && pyIsDigit c3 &&
        pyIsDigit c4 && c5 == ':' && pyIsDigit c6 && pyIsDigit c7 then
      some rest
    else none
  | _ => none

/-- Match the regex `\d{2}:\d{2}:\d{2}\.\d{3}` (line 377) at the head of
the list; on success return the remainder after the 12 consumed characters. -/
def matchTs3 : List Char → Option (List Char)
  | c0 :: c1 :: c2 :: c3 :: c4 :: c5 :: c6 :: c7 :: c8 :: c9 :: c10 :: c11 :: rest =>
    if pyIsDigit c0 && pyIsDigit c1 && c2 == ':' && pyIsDigit c3 &&
        pyIsDigit c4 && c5 == ':' && pyIsDigit c6 && pyIsDigit c7 &&
        c8 == '.' && pyIsDigit c9 && pyIsDigit c10 && pyIsDigit c11 then
      some rest
    else none
  | _ => none

/-- Match the regex `\[\d{2}:\d{2}:\d{2}\.\d{3}\s*-->\s*\d{2}:\d{2}:\d{2}\.\d{3}\]`
(line 374) at the head of the list.  The greedy `\s*` is deterministic
here because `-` is not whitespace. -/
def matchBracket : List Char → Option (List Char)
  | [] => none
  | c :: rest =>
    if c = '[' then
      match matchTs3 rest with
      | none => none
      | some r1 =>
        match r1.dropWhile pyIsSpace with
        | '-' :: '-' :: '>' :: r3 =>
          match matchTs3 (r3.dropWhile pyIsSpace) with
          | none => none
          | some r5 =>
            match r5 with
            | ']' :: r6 => some r6
            | _ => none
        | _ => none
    else none

/-- One `re.sub(pattern, '', text)` engine: scan left to right; at each
position either remove a leftmost match and continue after it, or keep
the character.  Fuelled by the input length (each step consumes at least
one character, so `fuel = length` is exact). -/
def subGo (m : List Char → Option (List Char)) : Nat → List Char → List Char
  | 0, l => l
  | _ + 1, [] => []
  | n + 1, c :: cs =>
    match m (c :: cs) with
    | some rest => subGo m n rest
    | none => c :: subGo m n cs

/-- `re.sub` of the bracketed-timestamp pattern (line 374). -/
def subBracket (l : List Char) : List Char := subGo matchBracket l.length l

/-- `re.sub` of `\d{2}:\d{2}:\d{2}\.\d{3}` (line 377). -/
def subTs3 (l : List Char) : List Char := subGo matchTs3 l.length l

/-- `re.sub` of `\d{2}:\d{2}:\d{2}` (line 378). -/
def subTs2 (l : List Char) : List Char := subGo matchTs2 l.length l

/-- Whether some suffix of `l` starts with a `\d{2}:\d{2}:\d{2}` match,
i.e. whether the string contains a bare `hh:mm:ss` timestamp. -/
def hasTs2 : List Char → Bool
  | [] => false
  | c :: cs => (matchTs2 (c :: cs)).isSome || hasTs2 cs

/-- Whether the string contains the bracketed timestamp markup
`[hh:mm:ss.mmm --> hh:mm:ss.mmm]`. -/
def hasBracket : List Char → Bool
  | [] => false
  | c :: cs => (matchBracket (c :: cs)).isSome || hasBracket cs

/-- Prepend a character to the first word of a word list (starting a
fresh word if there is none). -/
def consWord (c : Char) : List (List Char) → List (List Char)
  | [] => [[c]]
  | w :: ws => (c :: w) :: ws

/-- Python `str.split()` (no separator): split on runs of whitespace,
discarding empty fields (line 381). -/
def pySplit : List Char → List (List Char)
  | [] => []
  | c :: cs =>
    if pyIsSpace c then pySplit cs
    else
      match cs with
      | [] => [[c]]
      | c2 :: _ =>
        if pyIsSpace c2 then [c] :: pySplit cs
        else consWord c (pySplit cs)

/-- Python `' '.join(words)` (line 381). -/
def pyJoin : List (List Char) → List Char
  | [] => []
  | [w] => w
  | w :: ws => w ++ ' ' :: pyJoin ws

/-- Python `str.strip(chars)`: drop characters satisfying `p` from both
ends. -/
def pyStrip (p : Char → Bool) (l : List Char) : List Char :=
  ((l.dropWhile p).reverse.dropWhile p).reverse

/-- Python `str.strip()` (whitespace strip, lines 393 and 105). -/
def pyStripWs (l : List Char) : List Char := pyStrip pyIsSpace l

/-- The `false_positives` list (lines 388-391). -/
def falsePositives : List (List Char) :=
  ["um".toList, "uh".toList, "ah".toList, "eh".toList, "er".toList,
   "".toList, " ".toList, "  ".toList, "...".toList, "...".toList]

/-- The `meaningful_single_words` whitelist (line 408). -/
def meaningfulSingleWords : List (List Char) :=
  ["you".toList, "hello".toList, "yes".toList, "no".toList, "okay".toList,
   "ok".toList, "stop".toList, "go".toList, "up".toList, "down".toList,
   "left".toList, "right".toList]

/-- The five noise words of the spec's noise set (the word-shaped
entries of `false_positives`). -/
def noiseWords : List (List Char) :=
  ["um".toList, "uh".toList, "ah".toList, "eh".toList, "er".toList]

/-- Lists of words as produced by `pySplit`: every word is non-empty
and free of whitespace. -/
def wordsOk (ws : List (List Char)) : Bool :=
  ws.all (fun w => !w.isEmpty && w.all (fun c => !pyIsSpace c))

/-- The normalisation part of `_clean_transcription` (lines 372-382):
remove the three timestamp patterns in order, collapse whitespace via
`' '.join(text.split())`, then `strip(' .,!?;-')`. -/
def cleanCore (l : List Char) : List Char :=
  pyStrip stripSetChar (pyJoin (pySplit (subTs2 (subTs3 (subBracket l)))))

/-- The decision part of `_clean_transcription` (lines 384-417), applied
to the normalised text `t`:
empty → `None`; `len(text_lower) < 2` → `None`; `text_lower` a false
positive → `None`; a single false-positive word → `None`; a single
whitelisted word → accept; all digits/whitespace/punctuation → `None`;
otherwise accept `t`. -/
def cleanDecide (t : List Char) : Option (List Char) :=
  if t = [] then none
  else
    let tl := pyStripWs (t.map pyToLower)
    if tl.length < 2 then none
    else if tl ∈ falsePositives then none
    else
      match pySplit tl with
      | [w] =>
        if w ∈ falsePositives then none
        else if w ∈ meaningfulSingleWords then some t
        else if onlyDigitsPunct t then none
        else some t
      | _ => if onlyDigitsPunct t then none else some t

/-- `_clean_transcription` (lines 367-417): `None` on rejection, the
cleaned text on acceptance.  (The guard `if not text: return None` on the
raw argument at line 369 is behaviourally subsumed: an empty input cleans
to the empty list, which `cleanDecide` rejects.) -/
def cleanTranscription (l : List Char) : Option (List Char) :=
  cleanDecide (cleanCore l)

/-! ## Recording lifecycle model

The stateful part of `PushToTalk` is modelled single-threadedly: each
method becomes a function from the relevant state and an environment
(the external world's responses: device, disk, engine, notification
transports) to a new state plus a trace of observable side effects. -/

/-- Observable side effects of a record/transcribe cycle. -/
inductive Event where
  /-- `subprocess.run(["notify-send", title, message, "-t", ms])` (line 114). -/
  | notifySendInvoke (title message : String) (ms : Nat)
  /-- `plyer.notification.notify(...)` (line 121). -/
  | plyerNotify (title message : String)
  /-- the console-fallback `print` (line 130). -/
  | consolePrint (title message : String)
  /-- opening the capture stream (line 208). -/
  | streamOpen
  /-- closing the capture stream (lines 229-230). -/
  | streamClose
  /-- writing the temporary WAV file (lines 257-262). -/
  | wavWrite
  /-- `subprocess.run` of the whisper.cpp executable (line 336). -/
  | runWhisper
  /-- `pyperclip.copy(transcription)` (line 281). -/
  | clipboardCopy (t : List Char)
  /-- `_save_transcription(transcription, duration)` (line 288). -/
  | saveTranscription (t : List Char)
  /-- `os.unlink(temp_path)` (line 307). -/
  | unlinkTemp
  deriving DecidableEq

/-- Classifier: is the event the whisper.cpp subprocess invocation? -/
def Event.isRun : Event → Bool
  | .runWhisper => true
  | _ => false

/-- Classifier: is the event a clipboard write? -/
def Event.isClip : Event → Bool
  | .clipboardCopy _ => true
  | _ => false

/-- Classifier: is the event a transcription-record save? -/
def Event.isSave : Event → Bool
  | .saveTranscription _ => true
  | _ => false

/-- Classifier: is the event the WAV encode? -/
def Event.isWav : Event → Bool
  | .wavWrite => true
  | _ => false

/-- The title carried by a notification-transport event, if any. -/
def Event.notifyTitle : Event → Option String
  | .notifySendInvoke t _ _ => some t
  | .plyerNotify t _ => some t
  | .consolePrint t _ => some t
  | _ => none

/-- Availability and success of the notification transports
(`NOTIFY_SEND_AVAILABLE`, `PLYER_AVAILABLE`, and whether the
`notify-send` call raises). -/
structure NotifyEnv where
  notifySendAvailable : Bool
  notifySendOk : Bool
  plyerAvailable : Bool

/-- `_send_notification` (lines 102-130): skip when title or message is
empty/whitespace-only; otherwise try `notify-send` (returning on
success, falling through on an exception), then `plyer`, with a console
print as last resort.  (The optional `icon` argument only extends the
`notify-send` argument list and is not modelled.) -/
def sendNotification (env : NotifyEnv) (title message : String) (timeout : Nat) :
    List Event :=
  if pyStripWs title.toList = [] ∨ pyStripWs message.toList = [] then []
  else
    let fallback :=
      if env.plyerAvailable then [Event.plyerNotify title message]
      else [Event.consolePrint title message]
    if env.notifySendAvailable then
      if env.notifySendOk then [Event.notifySendInvoke title message (timeout * 1000)]
      else Event.notifySendInvoke title message (timeout * 1000) :: fallback
    else fallback

/-- Outcome of the whisper.cpp subprocess as seen by `_transcribe_audio`. -/
inductive EngineOutcome where
  /-- `subprocess.TimeoutExpired` after the 30 s limit (line 355). -/
  | timeout
  /-- any other exception from the invocation (line 363). -/
  | exn
  /-- normal completion with an exit code, stdout and stderr. -/
  | completed (code : Int) (stdout stderr : String)
  deriving DecidableEq

/-- External responses during one stop-and-transcribe cycle. -/
structure StopEnv where
  /-- whether `self.model_path` is set and exists (line 313). -/
  modelOk : Bool
  /-- whether writing the temporary WAV succeeds (lines 257-262 raise otherwise). -/
  encodeOk : Bool
  /-- the whisper.cpp subprocess outcome. -/
  engine : EngineOutcome
  /-- whether `pyperclip.copy` succeeds (an exception aborts to the
  `except`/`finally` blocks). -/
  clipboardOk : Bool
  /-- notification transport availability. -/
  notify : NotifyEnv

/-- Recording state of the `PushToTalk` object: `self.is_recording` and
`self.audio_frames` (each frame one captured chunk of `CHUNK = 1024`
samples, modelled as raw bytes). -/
structure PTState where
  isRecording : Bool
  audioFrames : List (List Nat)
  deriving DecidableEq

/-- `_transcribe_audio` (lines 311-365): missing model → `None` with no
invocation; timeout → `None` plus the distinct timeout notification;
other exception → `None`; exit code 0 → `_clean_transcription` of the
stripped stdout; non-zero exit → `None`.  Never more than one
`subprocess.run` of the engine. -/
def transcribeAudio (env : StopEnv) : Option (List Char) × List Event :=
  if !env.modelOk then (none, [])
  else
    match env.engine with
    | .timeout =>
      (none, Event.runWhisper ::
        sendNotification env.notify "⏰ Transcription Timeout"
          "Audio processing took too long" 5)
    | .exn => (none, [Event.runWhisper])
    | .completed code stdout _ =>
      if code = 0 then
        (cleanTranscription (pyStripWs stdout.toList), [Event.runWhisper])
      else (none, [Event.runWhisper])

/-- Duration check of line 272: `(len(self.audio_frames) * self.CHUNK) /
self.RATE < 0.3` with `CHUNK = 1024`, `RATE = 16000`.  The float
computation is modelled exactly over `ℚ`; for integer frame counts the
two never disagree (`0.064·n` is never within floating-point error of
`0.3`). -/
def durationShort (frames : Nat) : Bool :=
  decide ((frames * 1024 : ℚ) / 16000 < 3 / 10)

/-- `stop_recording_and_transcribe` (lines 236-309), single-threaded
model.  Returns the new state and the trace of the cycle.  The
`finally` block always attempts `os.unlink(temp_path)`; the temporary
file name allocation itself (line 252) is modelled as succeeding. -/
def stopRecordingAndTranscribe (st : PTState) (env : StopEnv) :
    PTState × List Event :=
  if !st.isRecording then (st, [])
  else if !env.encodeOk then
    -- the WAV write raised: caught at line 302, cleaned up at line 307
    ({ st with isRecording := false },
      sendNotification env.notify "Processing" "Transcribing..." 1 ++
        [Event.unlinkTemp])
  else if st.audioFrames.length = 0 then
    ({ st with isRecording := false },
      sendNotification env.notify "Processing" "Transcribing..." 1 ++
        [Event.wavWrite, Event.unlinkTemp])
  else if durationShort st.audioFrames.length then
    ({ st with isRecording := false },
      sendNotification env.notify "Processing" "Transcribing..." 1 ++
        [Event.wavWrite, Event.unlinkTemp])
  else
    match transcribeAudio env with
    | (none, ev) =>
      ({ st with isRecording := false },
        sendNotification env.notify "Processing" "Transcribing..." 1 ++
          Event.wavWrite :: ev ++ [Event.unlinkTemp])
    | (some t, ev) =>
      if env.clipboardOk then
        ({ st with isRecording := false },
          sendNotification env.notify "Processing" "Transcribing..." 1 ++
            Event.wavWrite :: ev ++
            Event.clipboardCopy t :: Event.saveTranscription t ::
            sendNotification env.notify "Completed" "Transcribed" 1 ++
            [Event.unlinkTemp])
      else
        -- pyperclip.copy raised: caught at line 302, cleaned up at line 307
        ({ st with isRecording := false },
          sendNotification env.notify "Processing" "Transcribing..." 1 ++
            Event.wavWrite :: ev ++
            [Event.clipboardCopy t, Event.unlinkTemp])

/-- External responses during one start-recording call. -/
structure StartEnv where
  notify : NotifyEnv
  /-- whether `self.audio.open` succeeds (line 208). -/
  openOk : Bool
  /-- the chunks delivered by the capture stream before the concurrent
  stop request clears `is_recording`. -/
  chunks : List (List Nat)

/-- `start_recording` (lines 191-234), single-threaded model of one
complete call: re-entrant calls while recording are guarded at line 193;
otherwise the state is reset, the start notification sent, the stream
opened, chunks accumulated until the stop signal, and the stream closed.
On a device error the handler at line 232 clears `is_recording`. -/
def startRecording (st : PTState) (env : StartEnv) : PTState × List Event :=
  if st.isRecording then (st, [])
  else
    let ev := sendNotification env.notify "Start" "Recording..." 1
    if env.openOk then
      (⟨false, env.chunks⟩, ev ++ [Event.streamOpen, Event.streamClose])
    else
      (⟨false, []⟩, ev ++ [Event.streamOpen])

/-! ## Helper lemmas: notification traces -/

/-- Notification sending only produces notification-transport events:
never an engine run, clipboard write or record save. -/
lemma sendNotification_benign (env : NotifyEnv) (t m : String) (n : Nat) :
    (sendNotification env t m n).all
      (fun e => !e.isRun && !e.isClip && !e.isSave) = true := by
  rcases env with ⟨a, b, c⟩
  unfold sendNotification
  split
  · simp
  · rcases a <;> rcases b <;> rcases c <;>
      simp [Event.isRun, Event.isClip, Event.isSave]

/-- Notification traces contain no engine-run event. -/
lemma countP_isRun_sendNotification (env : NotifyEnv) (t m : String) (n : Nat) :
    (sendNotification env t m n).countP Event.isRun = 0 := by
  rw [List.countP_eq_zero]
  intro e he
  have h := (List.all_eq_true.mp (sendNotification_benign env t m n)) e he
  simp only [Bool.and_eq_true, Bool.not_eq_true'] at h
  simp [h.1.1]

/-- When both title and message have non-whitespace content, some
transport event carrying the title is always emitted. -/
lemma sendNotification_title_emitted (env : NotifyEnv) (t m : String) (n : Nat)
    (ht : pyStripWs t.toList ≠ []) (hm : pyStripWs m.toList ≠ []) :
    (sendNotification env t m n).any
      (fun e => e.notifyTitle == some t) = true := by
  rcases env with ⟨a, b, c⟩
  unfold sendNotification
  rw [if_neg (not_or.mpr ⟨ht, hm⟩)]
  rcases a <;> rcases b <;> rcases c <;>
    simp [Event.notifyTitle]

/-! ## C8: re-entrant presses and spurious releases are no-ops -/

/-- C8: calling `start_recording` while already recording leaves the
state untouched and produces no side effect (line 193), and calling
`stop_recording_and_transcribe` while not recording does likewise
(line 238): no encode, no subprocess, no delivery. -/
theorem c8_reentrant_press_and_release_noops :
    (∀ (st : PTState) (env : StartEnv), st.isRecording = true →
        startRecording st env = (st, [])) ∧
    (∀ (st : PTState) (env : StopEnv), st.isRecording = false →
        stopRecordingAndTranscribe st env = (st, [])) := by
  constructor
  · intro st env h
    simp [startRecording, h]
  · intro st env h
    simp [stopRecordingAndTranscribe, h]

/-- Witness for C8 at concrete states. -/
theorem c8_reentrant_press_and_release_noops_witness :
    startRecording ⟨true, [[1, 2]]⟩ ⟨⟨true, true, true⟩, true, []⟩ =
      (⟨true, [[1, 2]]⟩, []) ∧
    stopRecordingAndTranscribe ⟨false, [[1, 2]]⟩
        ⟨true, true, .completed 0 "hi" "", true, ⟨true, true, true⟩⟩ =
      (⟨false, [[1, 2]]⟩, []) :=
  ⟨c8_reentrant_press_and_release_noops.1 _ _ rfl,
   c8_reentrant_press_and_release_noops.2 _ _ rfl⟩

/-! ## C9: the temporary WAV file is removed on every exit path -/

/-- C9: whatever the environment does (encode failure, missing model,
engine timeout/error/success, clipboard failure, any notification
transports), a cycle that actually starts always reaches the `finally`
cleanup: `os.unlink(temp_path)` appears in the trace. -/
theorem c9_temp_file_removed_on_all_paths (st : PTState) (env : StopEnv)
    (h : st.isRecording = true) :
    Event.unlinkTemp ∈ (stopRecordingAndTranscribe st env).2 := by
  unfold stopRecordingAndTranscribe
  split
  · next hc => rw [h] at hc; simp at hc
  · split
    · simp
    · split
      · simp
      · split
        · simp
        · split
          · simp
          · split <;> simp

/-- Witness for C9 at a concrete recording state and environment. -/
theorem c9_temp_file_removed_on_all_paths_witness :
    Event.unlinkTemp ∈ (stopRecordingAndTranscribe ⟨true, [[0], [0]]⟩
      ⟨true, false, .timeout, true, ⟨false, false, false⟩⟩).2 :=
  c9_temp_file_removed_on_all_paths _ _ rfl

/-! ## C10: empty notifications are skipped entirely -/

/-- C10: if either the title or the message is empty or whitespace-only,
`_send_notification` returns before invoking any transport (line 105):
no `notify-send` subprocess, no plyer call, no console fallback. -/
theorem c10_empty_notification_is_noop (env : NotifyEnv) (t m : String)
    (n : Nat) (h : pyStripWs t.toList = [] ∨ pyStripWs m.toList = []) :
    sendNotification env t m n = [] := by
  unfold sendNotification
  exact if_pos h

/-- Witness for C10: a whitespace-only title is skipped. -/
theorem c10_empty_notification_is_noop_witness :
    sendNotification ⟨true, true, true⟩ "  " "message" 1 = [] :=
  c10_empty_notification_is_noop _ _ _ _ (Or.inl (by decide))

/-- The duration check is equivalent to `frames < 5`
(`n·1024/16000 < 0.3 ↔ n < 4.6875`), in a kernel-computable form. -/
lemma durationShort_eq (n : Nat) : durationShort n = decide (n < 5) := by
  unfold durationShort
  rw [decide_eq_decide]
  rw [div_lt_div_iff₀ (by norm_num : (0 : ℚ) < 16000) (by norm_num : (0 : ℚ) < 10)]
  constructor
  · intro hlt
    by_contra hge
    push_neg at hge
    have h5 : (5 : ℚ) ≤ (n : ℚ) := by exact_mod_cast hge
    nlinarith
  · intro hlt
    have h4 : (n : ℚ) ≤ 4 := by exact_mod_cast Nat.lt_succ_iff.mp hlt
    nlinarith

/-! ## C7: timeout handling and the exit-code contract -/

/-- C7: (1) when the model is present and the engine subprocess hits its
30 s timeout, no transcript is returned, exactly one engine invocation
happened, and the distinct "⏰ Transcription Timeout" notification is
emitted; (2) no call path ever invokes the engine more than once (no
automatic retry); (3) a transcript is returned only when the engine
exits with code zero. -/
theorem c7_timeout_and_exit_code_contract :
    (∀ env : StopEnv, env.modelOk = true → env.engine = .timeout →
        (transcribeAudio env).1 = none ∧
        (transcribeAudio env).2.countP Event.isRun = 1 ∧
        (transcribeAudio env).2.any
          (fun e => e.notifyTitle == some "⏰ Transcription Timeout") = true) ∧
    (∀ env : StopEnv, (transcribeAudio env).2.countP Event.isRun ≤ 1) ∧
    (∀ (env : StopEnv) (t : List Char), (transcribeAudio env).1 = some t →
        ∃ out err, env.engine = .completed 0 out err) := by
  refine ⟨?_, ?_, ?_⟩
  · intro env hm he
    rcases env with ⟨mo, eo, eng, co, ne⟩
    simp only at hm he
    subst hm
    subst he
    have h1 := sendNotification_title_emitted ne "⏰ Transcription Timeout"
      "Audio processing took too long" 5 (by decide) (by decide)
    have h2 : transcribeAudio ⟨true, eo, .timeout, co, ne⟩ =
        (none, Event.runWhisper :: sendNotification ne "⏰ Transcription Timeout"
          "Audio processing took too long" 5) := rfl
    rw [h2]
    refine ⟨rfl, ?_, ?_⟩
    · simp [List.countP_cons, Event.isRun, countP_isRun_sendNotification]
    · rw [List.any_cons, h1]
      simp
  · intro env
    rcases env with ⟨mo, eo, eng, co, ne⟩
    rcases mo
    · simp [transcribeAudio]
    · rcases eng with _ | _ | ⟨code, out, err⟩ <;>
        simp [transcribeAudio, List.countP_cons, Event.isRun,
          countP_isRun_sendNotification]
      split <;> simp [List.countP_cons, Event.isRun]
  · intro env t hsome
    rcases env with ⟨mo, eo, eng, co, ne⟩
    rcases mo
    · exact absurd hsome (by simp [transcribeAudio])
    · rcases eng with _ | _ | ⟨code, out, err⟩
      · exact absurd hsome (by simp [transcribeAudio])
      · exact absurd hsome (by simp [transcribeAudio])
      · by_cases hc : code = 0
        · subst hc
          exact ⟨out, err, rfl⟩
        · exact absurd hsome (by simp [transcribeAudio, hc])

/-- Witness for C7 at a concrete timing-out environment. -/
theorem c7_timeout_and_exit_code_contract_witness :
    (transcribeAudio ⟨true, true, .timeout, true, ⟨true, true, true⟩⟩).1 = none ∧
    (transcribeAudio ⟨true, true, .timeout, true,
        ⟨true, true, true⟩⟩).2.countP Event.isRun = 1 ∧
    (transcribeAudio ⟨true, true, .timeout, true, ⟨true, true, true⟩⟩).2.any
      (fun e => e.notifyTitle == some "⏰ Transcription Timeout") = true :=
  c7_timeout_and_exit_code_contract.1 _ rfl rfl

/-! ## C1: short or empty sessions are discarded — but after the encode -/

/-- Refutation of C1 as stated: a 3-chunk session lasts
3·1024/16000 = 0.192 s < 0.3 s, yet the trace of
`stop_recording_and_transcribe` contains the WAV-encode event, because
the code writes the temporary WAV (lines 252-262) before the duration
check (lines 264-274).  The claim's "no WAV file is produced (the encode
stage is never reached)" is false. -/
theorem c1_counterexample_short_session_still_encodes :
    durationShort 3 = true ∧
    Event.wavWrite ∈ (stopRecordingAndTranscribe ⟨true, [[0], [0], [0]]⟩
      ⟨true, true, .completed 0 "hello there" "", true,
        ⟨true, true, true⟩⟩).2 := by
  have hd : durationShort 3 = true := by
    rw [durationShort_eq]
    decide
  refine ⟨hd, ?_⟩
  simp [stopRecordingAndTranscribe, hd]

/-- C1 (amended): a session that captured zero chunks or less than
0.3 s of audio is discarded with no transcription subprocess invoked
and no delivery (no clipboard write, no record save); the temporary WAV
file is written first but removed in the cleanup, and the state returns
to idle. -/
theorem c1_short_session_no_engine_no_delivery (st : PTState) (env : StopEnv)
    (h : st.isRecording = true)
    (hshort : st.audioFrames.length = 0 ∨
      durationShort st.audioFrames.length = true) :
    (stopRecordingAndTranscribe st env).2.all
      (fun e => !e.isRun && !e.isClip && !e.isSave) = true ∧
    Event.unlinkTemp ∈ (stopRecordingAndTranscribe st env).2 ∧
    (stopRecordingAndTranscribe st env).1.isRecording = false := by
  have hall : ∀ (tl : List Event),
      tl.all (fun e => !e.isRun && !e.isClip && !e.isSave) = true →
      (sendNotification env.notify "Processing" "Transcribing..." 1 ++ tl).all
        (fun e => !e.isRun && !e.isClip && !e.isSave) = true := by
    intro tl htl
    rw [List.all_append]
    exact Bool.and_eq_true_iff.mpr ⟨sendNotification_benign _ _ _ _, htl⟩
  unfold stopRecordingAndTranscribe
  rw [h, if_neg (by decide : ¬((!true) = true))]
  rcases henc : env.encodeOk
  · rw [if_pos (by decide : (!false) = true)]
    refine ⟨hall _ (by decide), ?_, ?_⟩
    · simp
    · rfl
  · rw [if_neg (by decide : ¬((!true) = true))]
    rcases hshort with h0 | hdur
    · rw [if_pos h0]
      refine ⟨hall _ (by decide), ?_, ?_⟩
      · simp
      · rfl
    · by_cases h0 : st.audioFrames.length = 0
      · rw [if_pos h0]
        refine ⟨hall _ (by decide), ?_, ?_⟩
        · simp
        · rfl
      · rw [if_neg h0, if_pos hdur]
        refine ⟨hall _ (by decide), ?_, ?_⟩
        · simp
        · rfl

/-- Witness for C1 (amended) at a concrete 3-chunk (0.192 s) session. -/
theorem c1_short_session_no_engine_no_delivery_witness :
    (stopRecordingAndTranscribe ⟨true, [[0], [0], [0]]⟩
        ⟨true, true, .completed 0 "hello there" "", true,
          ⟨true, true, true⟩⟩).2.all
      (fun e => !e.isRun && !e.isClip && !e.isSave) = true ∧
    Event.unlinkTemp ∈ (stopRecordingAndTranscribe ⟨true, [[0], [0], [0]]⟩
      ⟨true, true, .completed 0 "hello there" "", true,
        ⟨true, true, true⟩⟩).2 ∧
    (stopRecordingAndTranscribe ⟨true, [[0], [0], [0]]⟩
        ⟨true, true, .completed 0 "hello there" "", true,
          ⟨true, true, true⟩⟩).1.isRecording = false :=
  c1_short_session_no_engine_no_delivery _ _ rfl
    (Or.inr (by rw [durationShort_eq]; decide))

/-! ## Matcher lemmas -/

/-- A whitespace character is not a digit. -/
lemma not_digit_of_space {c : Char} (h : pyIsSpace c = true) :
    pyIsDigit c = false := by
  simp [pyIsSpace] at h
  rcases h with ((((h | h) | h) | h) | h) | h <;> subst h <;> decide

/-- `\d{2}:\d{2}:\d{2}` fails when the first character is whitespace. -/
lemma matchTs2_none_ws0 (c0 : Char) (r : List Char) (h : pyIsSpace c0 = true) :
    matchTs2 (c0 :: r) = none := by
  have hd := not_digit_of_space h
  rcases r with _ | ⟨c1, _ | ⟨c2, _ | ⟨c3, _ | ⟨c4, _ | ⟨c5, _ | ⟨c6, _ |
    ⟨c7, rest⟩⟩⟩⟩⟩⟩⟩ <;> simp [matchTs2, hd]

/-- `\d{2}:\d{2}:\d{2}` fails when the second character is whitespace. -/
lemma matchTs2_none_ws1 (c0 c1 : Char) (r : List Char)
    (h : pyIsSpace c1 = true) : matchTs2 (c0 :: c1 :: r) = none := by
  have hd := not_digit_of_space h
  rcases r with _ | ⟨c2, _ | ⟨c3, _ | ⟨c4, _ | ⟨c5, _ | ⟨c6, _ |
    ⟨c7, rest⟩⟩⟩⟩⟩⟩ <;> simp [matchTs2, hd]

/-- `\d{2}:\d{2}:\d{2}` fails when the third character is whitespace. -/
lemma matchTs2_none_ws2 (c0 c1 c2 : Char) (r : List Char)
    (h : pyIsSpace c2 = true) : matchTs2 (c0 :: c1 :: c2 :: r) = none := by
  have hc : (c2 == ':') = false := by
    simp [pyIsSpace] at h
    rcases h with ((((h | h) | h) | h) | h) | h <;> subst h <;> decide
  rcases r with _ | ⟨c3, _ | ⟨c4, _ | ⟨c5, _ | ⟨c6, _ |
    ⟨c7, rest⟩⟩⟩⟩⟩ <;> simp [matchTs2, hc]

/-- `\d{2}:\d{2}:\d{2}\.\d{3}` fails whenever `\d{2}:\d{2}:\d{2}` does. -/
lemma matchTs3_none_of_matchTs2_none : ∀ {l : List Char},
    matchTs2 l = none → matchTs3 l = none := by
  intro l h
  rcases l with _ | ⟨c0, _ | ⟨c1, _ | ⟨c2, _ | ⟨c3, _ | ⟨c4, _ | ⟨c5, _ |
    ⟨c6, _ | ⟨c7, _ | ⟨c8, _ | ⟨c9, _ | ⟨c10, _ | ⟨c11, rest⟩⟩⟩⟩⟩⟩⟩⟩⟩⟩⟩⟩ <;>
      simp [matchTs2, matchTs3] at h ⊢ <;> simp_all

/-- The bracketed pattern fails whenever the inner
`\d{2}:\d{2}:\d{2}\.\d{3}` fails right after the opening bracket. -/
lemma matchBracket_none_of_ts3_none {c : Char} {cs : List Char}
    (h : matchTs3 cs = none) : matchBracket (c :: cs) = none := by
  by_cases hc : c = '['
  · subst hc
    simp [matchBracket, h]
  · simp [matchBracket, hc]

/-- A string with no `hh:mm:ss` substring has no `matchTs2` match at any
suffix. -/
lemma matchTs2_none_of_hasTs2_false : ∀ {l : List Char},
    hasTs2 l = false → ∀ s, s <:+ l → matchTs2 s = none := by
  intro l
  induction l with
  | nil =>
    intro _ s hs
    rw [List.suffix_nil.mp hs]
    rfl
  | cons c cs ih =>
    intro h s hs
    rcases hmt : matchTs2 (c :: cs) with _ | r
    · rcases List.suffix_cons_iff.mp hs with rfl | hs'
      · exact hmt
      · refine ih ?_ s hs'
        simp [hasTs2, hmt] at h
        exact h
    · simp [hasTs2, hmt] at h

/-- A string with no `hh:mm:ss` substring has no bracketed-timestamp
match at any suffix. -/
lemma matchBracket_none_of_hasTs2_false {l : List Char}
    (h : hasTs2 l = false) : ∀ s, s <:+ l → matchBracket s = none := by
  intro s hs
  rcases s with _ | ⟨c, cs⟩
  · rfl
  · refine matchBracket_none_of_ts3_none (matchTs3_none_of_matchTs2_none ?_)
    exact matchTs2_none_of_hasTs2_false h cs
      (((List.suffix_cons c cs).trans hs))

/-- `re.sub` leaves the string unchanged when the pattern matches at no
suffix. -/
lemma subGo_id (m : List Char → Option (List Char)) :
    ∀ (n : Nat) (l : List Char), (∀ s, s <:+ l → m s = none) →
      subGo m n l = l := by
  intro n
  induction n with
  | zero => intro l _; rfl
  | succ k ih =>
    intro l h
    cases l with
    | nil => rfl
    | cons c cs =>
      have h0 := h (c :: cs) (List.suffix_refl _)
      have hrest : ∀ s, s <:+ cs → m s = none :=
        fun s hs => h s (hs.trans (List.suffix_cons _ _))
      simp [subGo, h0, ih cs hrest]

/-- Timestamp-free strings are fixed by the bracket-pattern pass. -/
lemma subBracket_id {l : List Char} (h : hasTs2 l = false) :
    subBracket l = l :=
  subGo_id _ _ _ (matchBracket_none_of_hasTs2_false h)

/-- Timestamp-free strings are fixed by the `hh:mm:ss.mmm` pass. -/
lemma subTs3_id {l : List Char} (h : hasTs2 l = false) : subTs3 l = l :=
  subGo_id _ _ _ (fun s hs =>
    matchTs3_none_of_matchTs2_none (matchTs2_none_of_hasTs2_false h s hs))

/-- Timestamp-free strings are fixed by the `hh:mm:ss` pass. -/
lemma subTs2_id {l : List Char} (h : hasTs2 l = false) : subTs2 l = l :=
  subGo_id _ _ _ (matchTs2_none_of_hasTs2_false h)

/-- A string with no `hh:mm:ss` substring contains no bracketed
timestamp markup either (the markup contains one). -/
lemma hasBracket_false_of_hasTs2_false : ∀ {l : List Char},
    hasTs2 l = false → hasBracket l = false := by
  intro l h
  induction l with
  | nil => rfl
  | cons c cs ih =>
    have hb : matchBracket (c :: cs) = none :=
      matchBracket_none_of_hasTs2_false h _ (List.suffix_refl _)
    have hcs : hasTs2 cs = false := by
      rcases hmt : matchTs2 (c :: cs) with _ | r
      · simp [hasTs2, hmt] at h
        exact h
      · simp [hasTs2, hmt] at h
    simp [hasBracket, hb, ih hcs]

/-! ## `split`/`join`/`strip` machinery -/

/-- `pySplit` step: leading whitespace is skipped. -/
lemma pySplit_cons_ws (c : Char) (t : List Char) (hc : pyIsSpace c = true) :
    pySplit (c :: t) = pySplit t := by
  cases t <;> simp [pySplit, hc]

/-- `pySplit` step: a lone non-whitespace character is a word. -/
lemma pySplit_singleton (c : Char) (hc : pyIsSpace c = false) :
    pySplit [c] = [[c]] := by
  simp [pySplit, hc]

/-- `pySplit` step: a word ends before whitespace. -/
lemma pySplit_cons_break (c c2 : Char) (t : List Char)
    (hc : pyIsSpace c = false) (hc2 : pyIsSpace c2 = true) :
    pySplit (c :: c2 :: t) = [c] :: pySplit (c2 :: t) := by
  simp [pySplit, hc, hc2]

/-- `pySplit` step: adjacent non-whitespace characters extend the word. -/
lemma pySplit_cons_extend (c c2 : Char) (t : List Char)
    (hc : pyIsSpace c = false) (hc2 : pyIsSpace c2 = false) :
    pySplit (c :: c2 :: t) = consWord c (pySplit (c2 :: t)) := by
  simp [pySplit, hc, hc2]

/-- `str.split()` ignores a leading whitespace run. -/
lemma pySplit_ws_left : ∀ (l r : List Char), l.all pyIsSpace = true →
    pySplit (l ++ r) = pySplit r := by
  intro l
  induction l with
  | nil => intro r _; rfl
  | cons c l' ih =>
    intro r h
    rw [List.all_cons, Bool.and_eq_true] at h
    rw [List.cons_append, pySplit_cons_ws c _ h.1]
    exact ih r h.2

/-- `str.split()` of all-whitespace input is empty. -/
lemma pySplit_nil_of_ws (l : List Char) (h : l.all pyIsSpace = true) :
    pySplit l = [] := by
  have := pySplit_ws_left l [] h
  simpa using this

/-- `str.split()` peels off a leading word followed by end-of-string or
whitespace. -/
lemma pySplit_word_left : ∀ (w r : List Char), w ≠ [] →
    w.all (fun c => !pyIsSpace c) = true →
    (r = [] ∨ ∃ c t, r = c :: t ∧ pyIsSpace c = true) →
    pySplit (w ++ r) = w :: pySplit r := by
  intro w
  induction w with
  | nil => intro r hne _ _; exact absurd rfl hne
  | cons c w' ih =>
    intro r _ hall hr
    rw [List.all_cons, Bool.and_eq_true] at hall
    have hc : pyIsSpace c = false := by simpa using hall.1
    cases w' with
    | nil =>
      rcases hr with rfl | ⟨d, t, rfl, hd⟩
      · simpa using pySplit_singleton c hc
      · rw [List.singleton_append, pySplit_cons_break c d t hc hd]
    | cons c2 w'' =>
      have hc2 : pyIsSpace c2 = false := by
        have := (List.all_eq_true.mp hall.2) c2 (by simp)
        simpa using this
      have hih := ih r (by simp) hall.2 hr
      rw [List.cons_append, List.cons_append,
        pySplit_cons_extend c c2 (w'' ++ r) hc hc2]
      rw [List.cons_append] at hih
      rw [hih]
      rfl

/-- `' '.join` on a non-empty tail. -/
lemma pyJoin_cons (w : List Char) (v : List Char) (vs : List (List Char)) :
    pyJoin (w :: v :: vs) = w ++ ' ' :: pyJoin (v :: vs) := rfl

/-- `str.split()` is a left inverse of `' '.join` on lists of non-empty
whitespace-free words. -/
lemma pySplit_pyJoin : ∀ (ws : List (List Char)), wordsOk ws = true →
    pySplit (pyJoin ws) = ws := by
  intro ws
  induction ws with
  | nil => intro _; rfl
  | cons w ws ih =>
    intro h
    rw [wordsOk, List.all_cons, Bool.and_eq_true] at h
    have h1 := h.1
    rw [Bool.and_eq_true] at h1
    have hne : w ≠ [] := by
      have := h1.1
      simp only [Bool.not_eq_true'] at this
      simpa [List.isEmpty_iff] using this
    have hall : w.all (fun c => !pyIsSpace c) = true := h1.2
    have hws : wordsOk ws = true := h.2
    cases ws with
    | nil =>
      have := pySplit_word_left w [] hne hall (Or.inl rfl)
      simpa [pyJoin] using this
    | cons v vs =>
      rw [pyJoin_cons]
      rw [pySplit_word_left w (' ' :: pyJoin (v :: vs)) hne hall
        (Or.inr ⟨' ', pyJoin (v :: vs), rfl, by decide⟩)]
      rw [pySplit_cons_ws ' ' _ (by decide), ih hws]

/-- The words produced by `str.split()` are non-empty and
whitespace-free. -/
lemma wordsOk_pySplit : ∀ (l : List Char), wordsOk (pySplit l) = true := by
  intro l
  induction l with
  | nil => rfl
  | cons c cs ih =>
    rcases hsc : pyIsSpace c
    · cases cs with
      | nil =>
        rw [pySplit_singleton c hsc]
        simp [wordsOk, hsc]
      | cons c2 cs' =>
        rcases hsc2 : pyIsSpace c2
        · rw [pySplit_cons_extend c c2 cs' hsc hsc2]
          rcases hsp : pySplit (c2 :: cs') with _ | ⟨w, ws⟩
          · simp [consWord, wordsOk, hsc]
          · rw [hsp] at ih
            rw [wordsOk, List.all_cons, Bool.and_eq_true] at ih
            have ih1 := ih.1
            rw [Bool.and_eq_true] at ih1
            simp only [consWord]
            rw [wordsOk, List.all_cons, Bool.and_eq_true]
            refine ⟨?_, ih.2⟩
            rw [Bool.and_eq_true]
            refine ⟨by simp, ?_⟩
            rw [List.all_cons, Bool.and_eq_true]
            exact ⟨by simp [hsc], ih1.2⟩
        · rw [pySplit_cons_break c c2 cs' hsc hsc2]
          rw [wordsOk, List.all_cons, Bool.and_eq_true]
          exact ⟨by simp [hsc], ih⟩
    · rw [pySplit_cons_ws c cs hsc]
      exact ih

/-- Every character of a `str.split()` word occurs in the input. -/
lemma mem_of_mem_pySplit : ∀ (l w : List Char) (c : Char), w ∈ pySplit l →
    c ∈ w → c ∈ l := by
  intro l
  induction l with
  | nil => intro w c hw _; simp [pySplit] at hw
  | cons c0 cs ih =>
    intro w c hw hc
    rcases hsc : pyIsSpace c0
    · cases cs with
      | nil =>
        rw [pySplit_singleton c0 hsc] at hw
        simp at hw
        subst hw
        simpa using hc
      | cons c2 cs' =>
        rcases hsc2 : pyIsSpace c2
        · rw [pySplit_cons_extend c0 c2 cs' hsc hsc2] at hw
          rcases hsp : pySplit (c2 :: cs') with _ | ⟨w0, ws0⟩
          · rw [hsp] at hw
            simp [consWord] at hw
            subst hw
            have hcc : c = c0 := by simpa using hc
            simp [hcc]
          · rw [hsp] at hw
            simp only [consWord, List.mem_cons] at hw
            rcases hw with rfl | hw
            · rcases List.mem_cons.mp hc with rfl | hc'
              · simp
              · have := ih w0 c (by rw [hsp]; simp) hc'
                simp [this]
            · have := ih w c (by rw [hsp]; exact List.mem_cons_of_mem _ hw) hc
              simp [this]
        · rw [pySplit_cons_break c0 c2 cs' hsc hsc2] at hw
          rcases List.mem_cons.mp hw with rfl | hw'
          · have hcc : c = c0 := by simpa using hc
            simp [hcc]
          · have := ih w c hw' hc
            simp [this]
    · rw [pySplit_cons_ws c0 cs hsc] at hw
      have := ih w c hw hc
      simp [this]

/-! ## join, reverse and strip images -/

/-- `' '.join` over a snoc. -/
lemma pyJoin_append_single : ∀ (M : List (List Char)) (w : List Char),
    M ≠ [] → pyJoin (M ++ [w]) = pyJoin M ++ ' ' :: w := by
  intro M
  induction M with
  | nil => intro w h; exact absurd rfl h
  | cons m M' ih =>
    intro w _
    cases M' with
    | nil => simp [pyJoin]
    | cons m2 M'' =>
      have h1 : pyJoin (m :: (m2 :: M'') ++ [w]) =
          m ++ ' ' :: pyJoin ((m2 :: M'') ++ [w]) := rfl
      rw [h1, ih w (by simp), pyJoin_cons, List.append_assoc]
      rfl

/-- Reversing a join reverses the words and their order. -/
lemma reverse_pyJoin : ∀ (ws : List (List Char)),
    (pyJoin ws).reverse = pyJoin ((ws.map List.reverse).reverse) := by
  intro ws
  induction ws with
  | nil => rfl
  | cons w ws ih =>
    cases ws with
    | nil => simp [pyJoin]
    | cons v vs =>
      rw [pyJoin_cons, List.reverse_append, List.reverse_cons]
      rw [ih]
      have hne : ((v :: vs).map List.reverse).reverse ≠ [] := by simp
      conv_rhs => rw [List.map_cons, List.reverse_cons,
        pyJoin_append_single _ w.reverse hne]
      simp [List.append_assoc]

/-- `wordsOk` is preserved by reversing the words and their order. -/
lemma wordsOk_rev_map_rev (ws : List (List Char)) (h : wordsOk ws = true) :
    wordsOk ((ws.map List.reverse).reverse) = true := by
  rw [wordsOk, List.all_eq_true] at h ⊢
  intro w hw
  rw [List.mem_reverse, List.mem_map] at hw
  obtain ⟨v, hv, rfl⟩ := hw
  have hv2 := h v hv
  rw [Bool.and_eq_true] at hv2 ⊢
  constructor
  · simpa [List.isEmpty_iff] using
      (by simpa [List.isEmpty_iff] using hv2.1 : v ≠ [])
  · rw [List.all_eq_true] at hv2 ⊢
    intro c hc
    exact hv2.2 c (List.mem_reverse.mp hc)

/-- Dropping a strip set containing the space from the front of a join
of good words yields a join of good words. -/
lemma dropWhile_pyJoin (p : Char → Bool) (hp : p ' ' = true) :
    ∀ (ws : List (List Char)), wordsOk ws = true →
      ∃ ws', wordsOk ws' = true ∧ (pyJoin ws).dropWhile p = pyJoin ws' := by
  intro ws
  induction ws with
  | nil => intro _; exact ⟨[], rfl, by simp [pyJoin]⟩
  | cons w ws ih =>
    intro h
    rw [wordsOk, List.all_cons, Bool.and_eq_true] at h
    have hws : wordsOk ws = true := h.2
    have hwall : w.all (fun c => !pyIsSpace c) = true := by
      have h1 := h.1
      rw [Bool.and_eq_true] at h1
      exact h1.2
    cases ws with
    | nil =>
      rcases hdw : w.dropWhile p with _ | ⟨c, t⟩
      · exact ⟨[], rfl, by simp [pyJoin, hdw]⟩
      · refine ⟨[c :: t], ?_, by simp [pyJoin, hdw]⟩
        rw [wordsOk, List.all_cons, Bool.and_eq_true]
        refine ⟨?_, rfl⟩
        rw [Bool.and_eq_true]
        refine ⟨by simp, ?_⟩
        rw [List.all_eq_true]
        intro x hx
        have hxw : x ∈ w := (List.dropWhile_sublist p).subset (hdw ▸ hx)
        exact (List.all_eq_true.mp hwall) x hxw
    | cons v vs =>
      rw [pyJoin_cons, List.dropWhile_append]
      rcases hdw : w.dropWhile p with _ | ⟨c, t⟩
      · simp only [List.isEmpty_nil, if_true]
        rw [List.dropWhile_cons]
        rw [hp]
        simp only [if_true]
        exact ih hws
      · simp only [List.isEmpty_cons, if_false]
        refine ⟨(c :: t) :: v :: vs, ?_, rfl⟩
        rw [wordsOk, List.all_cons, Bool.and_eq_true]
        refine ⟨?_, hws⟩
        rw [Bool.and_eq_true]
        refine ⟨by simp, ?_⟩
        rw [List.all_eq_true]
        intro x hx
        have hxw : x ∈ w := (List.dropWhile_sublist p).subset (hdw ▸ hx)
        exact (List.all_eq_true.mp hwall) x hxw

/-- `str.strip(chars)` (for a set containing the space) maps a join of
good words to a join of good words. -/
lemma pyStrip_pyJoin (p : Char → Bool) (hp : p ' ' = true)
    (ws : List (List Char)) (h : wordsOk ws = true) :
    ∃ ws', wordsOk ws' = true ∧ pyStrip p (pyJoin ws) = pyJoin ws' := by
  obtain ⟨ws1, hok1, heq1⟩ := dropWhile_pyJoin p hp ws h
  unfold pyStrip
  rw [heq1, reverse_pyJoin ws1]
  obtain ⟨ws2, hok2, heq2⟩ :=
    dropWhile_pyJoin p hp _ (wordsOk_rev_map_rev ws1 hok1)
  rw [heq2, reverse_pyJoin ws2]
  exact ⟨_, wordsOk_rev_map_rev ws2 hok2, rfl⟩

/-- The normalised text is a join of good words. -/
lemma cleanCore_image (x : List Char) :
    ∃ ws, wordsOk ws = true ∧ cleanCore x = pyJoin ws := by
  unfold cleanCore
  exact pyStrip_pyJoin stripSetChar (by decide) _
    (wordsOk_pySplit (subTs2 (subTs3 (subBracket x))))

/-- Splitting and re-joining the normalised text is the identity. -/
lemma pyJoin_pySplit_cleanCore (x : List Char) :
    pyJoin (pySplit (cleanCore x)) = cleanCore x := by
  obtain ⟨ws, hok, heq⟩ := cleanCore_image x
  rw [heq, pySplit_pyJoin ws hok]

/-! ## strip idempotence -/

/-- `dropWhile` is idempotent. -/
lemma dropWhile_dropWhile (p : Char → Bool) :
    ∀ (l : List Char), (l.dropWhile p).dropWhile p = l.dropWhile p := by
  intro l
  induction l with
  | nil => rfl
  | cons c cs ih =>
    rw [List.dropWhile_cons]
    rcases hc : p c
    · simp only [Bool.false_eq_true, if_false]
      rw [List.dropWhile_cons, hc]
      simp
    · simp only [if_true]
      exact ih

/-- The head surviving a `dropWhile` fails the predicate. -/
lemma dropWhile_head_false (p : Char → Bool) (l : List Char) (c : Char)
    (t : List Char) (h : l.dropWhile p = c :: t) : p c = false := by
  have hne : l.dropWhile p ≠ [] := by simp [h]
  have h2 := List.head_dropWhile_not p l hne
  simp [h] at h2
  exact h2

/-- Right-stripping preserves the head character. -/
lemma head_of_rev_dropWhile_rev (p : Char → Bool) (y : List Char)
    (c : Char) (t : List Char)
    (h : (y.reverse.dropWhile p).reverse = c :: t) :
    ∃ u, y = c :: u := by
  have hsplit := List.takeWhile_append_dropWhile p y.reverse
  have : y = (y.reverse.dropWhile p).reverse ++
      (y.reverse.takeWhile p).reverse := by
    conv_lhs => rw [← List.reverse_reverse y, ← hsplit]
    rw [List.reverse_append]
  rw [h] at this
  exact ⟨t ++ (y.reverse.takeWhile p).reverse, by simpa using this⟩

/-- Python `str.strip(chars)` is idempotent. -/
lemma pyStrip_idem (p : Char → Bool) (l : List Char) :
    pyStrip p (pyStrip p l) = pyStrip p l := by
  unfold pyStrip
  have hz : (((l.dropWhile p).reverse.dropWhile p).reverse).dropWhile p =
      ((l.dropWhile p).reverse.dropWhile p).reverse := by
    rcases hzz : ((l.dropWhile p).reverse.dropWhile p).reverse with _ | ⟨c, t⟩
    · simp
    · obtain ⟨u, hu⟩ := head_of_rev_dropWhile_rev p (l.dropWhile p) c t hzz
      have hc : p c = false := dropWhile_head_false p l c u hu
      rw [List.dropWhile_cons, hc]
      simp
  rw [hz, List.reverse_reverse, dropWhile_dropWhile]

/-- The normalised text is already stripped. -/
lemma pyStrip_cleanCore (x : List Char) :
    pyStrip stripSetChar (cleanCore x) = cleanCore x := by
  unfold cleanCore
  rw [pyStrip_idem]

/-! ## C3: idempotence of the filter -/

/-- An accepted transcript is exactly the normalised text. -/
lemma cleanDecide_some {t r : List Char} (h : cleanDecide t = some r) :
    r = t := by
  unfold cleanDecide at h
  split at h
  · exact absurd h (by simp)
  · dsimp only at h
    repeat' split at h <;> simp_all

/-- Refutation of C3 as stated: the filter accepts
`"a 122:33:441:23:45"` with output `"a 11:23:45"` (the `hh:mm:ss` pass
removes `"22:33:44"` and splices `"1"` and `"1:23:45"` into a fresh
timestamp), but re-filtering that accepted output removes the spliced
timestamp and rejects the 1-character remainder: the filter is not
idempotent. -/
theorem c3_counterexample_refilter_rejects :
    cleanTranscription "a 122:33:441:23:45".toList =
      some ("a 11:23:45".toList) ∧
    cleanTranscription "a 11:23:45".toList = none := by
  constructor
  · decide
  · decide

/-- C3 (amended): the filter is idempotent on accepted outputs that
contain no `hh:mm:ss`-shaped substring (equivalently: left-to-right
removal can splice new timestamp text into the output, and only such
spliced timestamps break idempotence). -/
theorem c3_filter_idempotent_on_ts_free_outputs (x o : List Char)
    (h : cleanTranscription x = some o) (hts : hasTs2 o = false) :
    cleanTranscription o = some o := by
  unfold cleanTranscription at h
  have ho : o = cleanCore x := cleanDecide_some h
  have hcore : cleanCore o = o := by
    unfold cleanCore
    rw [subBracket_id hts, subTs3_id hts, subTs2_id hts]
    rw [ho, pyJoin_pySplit_cleanCore x]
    exact pyStrip_cleanCore x
  unfold cleanTranscription
  rw [hcore, ho]
  rw [ho] at h
  exact h

/-- Witness for C3 (amended): `" hello   world. "` is accepted as
`"hello world"`, which re-filters to itself. -/
theorem c3_filter_idempotent_on_ts_free_outputs_witness :
    cleanTranscription " hello   world. ".toList =
      some ("hello world".toList) ∧
    cleanTranscription "hello world".toList =
      some ("hello world".toList) :=
  ⟨by decide,
   c3_filter_idempotent_on_ts_free_outputs (" hello   world. ".toList)
     ("hello world".toList) (by decide) (by decide)⟩

/-! ## C4: timestamp markup removal -/

/-- Refutation of C4 as stated: an input containing genuine bracket
markup whose accepted output still contains the bracket pattern.  The
leading `[00:00:00.000 --> 00:00:01.000]` is removed, but inside the
rest the single left-to-right `hh:mm:ss` pass removes the two
`99:88:77` matches and splices `12:3`+`4:56.789` into fresh
`12:34:56.789` timestamps, reassembling complete bracket markup in the
output. -/
theorem c4_counterexample_output_contains_bracket :
    hasBracket ("[00:00:00.000 --> 00:00:01.000] q " ++
      "[12:399:88:774:56.789 --> 12:399:88:774:56.789] w").toList = true ∧
    cleanTranscription ("[00:00:00.000 --> 00:00:01.000] q " ++
      "[12:399:88:774:56.789 --> 12:399:88:774:56.789] w").toList =
      some ("q [12:34:56.789 --> 12:34:56.789] w".toList) ∧
    hasBracket ("q [12:34:56.789 --> 12:34:56.789] w".toList) = true := by
  refine ⟨by decide, by decide, by decide⟩

/-- C4 (amended): the filter applies single left-to-right removal
passes for the bracket markup and the bare `hh:mm:ss[.mmm]` patterns;
removals can splice new timestamp text, so the accepted output is
guaranteed free of the bracket markup only when it is free of bare
`hh:mm:ss` substrings (the markup contains one). -/
theorem c4_bracket_free_when_ts_free (x o : List Char)
    (_h : cleanTranscription x = some o) (hts : hasTs2 o = false) :
    hasBracket o = false :=
  hasBracket_false_of_hasTs2_false hts

/-- Witness for C4 (amended) on an input with genuine bracket markup. -/
theorem c4_bracket_free_when_ts_free_witness :
    cleanTranscription "[00:00:00.000 --> 00:00:01.000] hello".toList =
      some ("hello".toList) ∧
    hasTs2 "hello".toList = false ∧
    hasBracket "hello".toList = false :=
  ⟨by decide, by decide,
   c4_bracket_free_when_ts_free
     ("[00:00:00.000 --> 00:00:01.000] hello".toList) ("hello".toList)
     (by decide) (by decide)⟩

/-! ## C6: purely numeric/punctuation text is rejected -/

/-- Characters of the final-regex class are fixed by lowercasing. -/
lemma pyToLower_fix_of_class {d : Char} (h : digitsPunctChar d = true) :
    pyToLower d = d := by
  have hmem : d ∈ ['0', '1', '2', '3', '4', '5', '6', '7', '8', '9', ' ',
      '\t', '\n', '\r', '\x0b', '\x0c', '.', ',', '!', '?', ';', ':'] := by
    simp [digitsPunctChar, pyIsDigit, pyIsSpace] at h
    simp only [List.mem_cons, List.mem_singleton]
    tauto
  fin_cases hmem <;> decide

/-- Characters of a stripped string occur in the original. -/
lemma mem_of_mem_pyStrip {p : Char → Bool} {l : List Char} {x : Char}
    (h : x ∈ pyStrip p l) : x ∈ l := by
  unfold pyStrip at h
  rw [List.mem_reverse] at h
  have h2 := (List.dropWhile_sublist p).subset h
  rw [List.mem_reverse] at h2
  exact (List.dropWhile_sublist p).subset h2

/-- Every whitelist word contains a character outside the final-regex
class. -/
lemma meaningful_has_letter : ∀ w ∈ meaningfulSingleWords,
    w.any (fun c => !digitsPunctChar c) = true := by decide

/-- In the single-word branch, a whitelist hit contradicts a purely
numeric/punctuation normalised text. -/
lemma c6_meaningful_absurd (x w : List Char)
    (h : onlyDigitsPunct (cleanCore x) = true)
    (hsp : pySplit (pyStripWs ((cleanCore x).map pyToLower)) = [w])
    (hm : w ∈ meaningfulSingleWords) : False := by
  obtain ⟨c, hcw, hcc⟩ := List.any_eq_true.mp (meaningful_has_letter w hm)
  rw [Bool.not_eq_true'] at hcc
  have hctl : c ∈ pyStripWs ((cleanCore x).map pyToLower) :=
    mem_of_mem_pySplit _ w c (by rw [hsp]; simp) hcw
  have hcmap : c ∈ (cleanCore x).map pyToLower := mem_of_mem_pyStrip hctl
  obtain ⟨d, hd, hdc⟩ := List.mem_map.mp hcmap
  have hdclass : digitsPunctChar d = true :=
    List.all_eq_true.mp h d hd
  rw [pyToLower_fix_of_class hdclass] at hdc
  rw [hdc] at hdclass
  rw [hdclass] at hcc
  exact Bool.true_eq_false.mp hcc

/-- C6: if the normalised text consists solely of digits, whitespace
and the punctuation set `{. , ! ? ; :}` (the class of the final
rejection regex), the filter rejects it. -/
theorem c6_digits_punct_rejected (x : List Char)
    (h : onlyDigitsPunct (cleanCore x) = true) :
    cleanTranscription x = none := by
  unfold cleanTranscription cleanDecide
  split
  · rfl
  · dsimp only
    repeat' split
    any_goals rfl
    all_goals
      first
        | exact absurd h (by assumption)
        | exact absurd (c6_meaningful_absurd x _ h (by assumption)
            (by assumption)) not_false

/-- Witness for C6: `"123, 456!"` normalises to `"123, 456"` and is
rejected. -/
theorem c6_digits_punct_rejected_witness :
    onlyDigitsPunct (cleanCore "123, 456!".toList) = true ∧
    cleanTranscription "123, 456!".toList = none :=
  ⟨by decide, c6_digits_punct_rejected ("123, 456!".toList) (by decide)⟩

/-- Stripping never lengthens a string. -/
lemma pyStrip_length_le (p : Char → Bool) (l : List Char) :
    (pyStrip p l).length ≤ l.length := by
  unfold pyStrip
  rw [List.length_reverse]
  have h1 := (@List.dropWhile_sublist Char ((l.dropWhile p).reverse) p).length_le
  rw [List.length_reverse] at h1
  have h2 := (@List.dropWhile_sublist Char l p).length_le
  omega

/-! ## C5: noise words, blank input and too-short text are rejected -/

/-- In a string that is a two-character word surrounded by whitespace,
no suffix matches `\d{2}:\d{2}:\d{2}` or `\d{2}:\d{2}:\d{2}\.\d{3}`
(every 8-character window hits whitespace in its first three slots). -/
lemma ts_none_of_mid (w1 w2 : List Char) (a b : Char)
    (h1 : w1.all pyIsSpace = true) (h2 : w2.all pyIsSpace = true) :
    ∀ s, s <:+ (w1 ++ a :: b :: w2) →
      matchTs2 s = none ∧ matchTs3 s = none := by
  induction w1 with
  | nil =>
    intro s hs
    simp only [List.nil_append] at hs
    rcases List.suffix_cons_iff.mp hs with rfl | hs1
    · cases w2 with
      | nil => exact ⟨rfl, rfl⟩
      | cons v vs =>
        have hv : pyIsSpace v = true := List.all_eq_true.mp h2 v (by simp)
        exact ⟨matchTs2_none_ws2 a b v vs hv,
          matchTs3_none_of_matchTs2_none (matchTs2_none_ws2 a b v vs hv)⟩
    · rcases List.suffix_cons_iff.mp hs1 with rfl | hs2
      · cases w2 with
        | nil => exact ⟨rfl, rfl⟩
        | cons v vs =>
          have hv : pyIsSpace v = true := List.all_eq_true.mp h2 v (by simp)
          exact ⟨matchTs2_none_ws1 b v vs hv,
            matchTs3_none_of_matchTs2_none (matchTs2_none_ws1 b v vs hv)⟩
      · rcases s with _ | ⟨c, cs⟩
        · exact ⟨rfl, rfl⟩
        · have hc : pyIsSpace c = true :=
            List.all_eq_true.mp h2 c (hs2.subset (by simp))
          exact ⟨matchTs2_none_ws0 c cs hc,
            matchTs3_none_of_matchTs2_none (matchTs2_none_ws0 c cs hc)⟩
  | cons c w1' ih =>
    intro s hs
    rw [List.cons_append] at hs
    rw [List.all_cons, Bool.and_eq_true] at h1
    rcases List.suffix_cons_iff.mp hs with rfl | hs'
    · exact ⟨matchTs2_none_ws0 c _ h1.1,
        matchTs3_none_of_matchTs2_none (matchTs2_none_ws0 c _ h1.1)⟩
    · exact ih h1.2 s hs'

/-- In an all-whitespace string, no suffix matches either timestamp
pattern. -/
lemma ts_none_of_ws (l : List Char) (h : l.all pyIsSpace = true) :
    ∀ s, s <:+ l → matchTs2 s = none ∧ matchTs3 s = none := by
  intro s hs
  rcases s with _ | ⟨c, cs⟩
  · exact ⟨rfl, rfl⟩
  · have hc : pyIsSpace c = true :=
      List.all_eq_true.mp h c (hs.subset (by simp))
    exact ⟨matchTs2_none_ws0 c cs hc,
      matchTs3_none_of_matchTs2_none (matchTs2_none_ws0 c cs hc)⟩

/-- All three removal passes are the identity when no suffix matches the
timestamp patterns. -/
lemma subAll_id_of_ts_none {l : List Char}
    (h : ∀ s, s <:+ l → matchTs2 s = none ∧ matchTs3 s = none) :
    subTs2 (subTs3 (subBracket l)) = l := by
  have hb : subBracket l = l := by
    refine subGo_id _ _ _ ?_
    intro s hs
    rcases s with _ | ⟨c, cs⟩
    · rfl
    · exact matchBracket_none_of_ts3_none
        (h cs ((List.suffix_cons c cs).trans hs)).2
  rw [hb]
  have h3 : subTs3 l = l := subGo_id _ _ _ (fun s hs => (h s hs).2)
  rw [h3]
  exact subGo_id _ _ _ (fun s hs => (h s hs).1)

/-- Stripping fixes a two-character string whose characters are outside
the strip set. -/
lemma pyStrip_pair {p : Char → Bool} {a b : Char} (hpa : p a = false)
    (hpb : p b = false) : pyStrip p [a, b] = [a, b] := by
  unfold pyStrip
  rw [List.dropWhile_cons, hpa]
  simp only [Bool.false_eq_true, if_false]
  rw [List.reverse_cons, List.reverse_cons]
  simp only [List.reverse_nil, List.nil_append, List.singleton_append]
  rw [List.dropWhile_cons, hpb]
  simp

/-- Strip-set characters are fixed by lowercasing. -/
lemma stripSet_fix_lower {c : Char} (h : stripSetChar c = true) :
    pyToLower c = c := by
  have hmem : c ∈ [' ', '.', ',', '!', '?', ';', '-'] := by
    simp [stripSetChar] at h
    simp only [List.mem_cons, List.mem_singleton]
    tauto
  fin_cases hmem <;> decide

/-- A character whose lowercase form is outside the strip set is itself
outside the strip set. -/
lemma stripSet_false_of_lower {c d : Char} (hd : stripSetChar d = false)
    (h : pyToLower c = d) : stripSetChar c = false := by
  rcases hsc : stripSetChar c
  · rfl
  · rw [stripSet_fix_lower hsc] at h
    rw [h] at hsc
    rw [hsc] at hd
    exact absurd hd (by simp)

/-- Normalising whitespace + two non-whitespace non-strip-set
characters + whitespace yields exactly the two characters. -/
lemma c5_cleanCore_pair (w1 w2 : List Char) (a b : Char)
    (h1 : w1.all pyIsSpace = true) (h2 : w2.all pyIsSpace = true)
    (ha : pyIsSpace a = false) (hb : pyIsSpace b = false)
    (hsa : stripSetChar a = false) (hsb : stripSetChar b = false) :
    cleanCore (w1 ++ a :: b :: w2) = [a, b] := by
  unfold cleanCore
  rw [subAll_id_of_ts_none (ts_none_of_mid w1 w2 a b h1 h2)]
  rw [show w1 ++ a :: b :: w2 = w1 ++ ([a, b] ++ w2) from by simp]
  rw [pySplit_ws_left w1 _ h1]
  have hr : w2 = [] ∨ ∃ c t, w2 = c :: t ∧ pyIsSpace c = true := by
    cases w2 with
    | nil => exact Or.inl rfl
    | cons v vs =>
      exact Or.inr ⟨v, vs, rfl, List.all_eq_true.mp h2 v (by simp)⟩
  rw [pySplit_word_left [a, b] w2 (by simp) (by simp [ha, hb]) hr]
  rw [pySplit_nil_of_ws w2 h2]
  exact pyStrip_pair hsa hsb

/-- The noise words are among the false positives, are whitespace-free
and avoid the strip set. -/
lemma noiseWords_facts : ∀ w ∈ noiseWords, w ∈ falsePositives ∧
    w.all (fun c => !pyIsSpace c) = true ∧
    w.all (fun c => !stripSetChar c) = true := by decide

/-- Rejection of a two-character normalised text whose lowercase form is
a false positive. -/
lemma c5_reject_pair (x : List Char) (a b : Char)
    (hcc : cleanCore x = [a, b])
    (hwsa : pyIsSpace (pyToLower a) = false)
    (hwsb : pyIsSpace (pyToLower b) = false)
    (hfp : [pyToLower a, pyToLower b] ∈ falsePositives) :
    cleanTranscription x = none := by
  unfold cleanTranscription
  rw [hcc]
  unfold cleanDecide
  rw [if_neg (by simp : ¬([a, b] = ([] : List Char)))]
  dsimp only
  rw [List.map_cons, List.map_cons, List.map_nil]
  have htl : pyStripWs [pyToLower a, pyToLower b] =
      [pyToLower a, pyToLower b] := pyStrip_pair hwsa hwsb
  rw [htl]
  rw [if_neg (by simp :
    ¬(([pyToLower a, pyToLower b] : List Char).length < 2))]
  rw [if_pos hfp]

/-- C5: (1) any input whose whitespace-trimmed, lowercased form is one
of the noise words `um, uh, ah, eh, er` is rejected; (2) empty or
whitespace-only input is rejected; (3) any input whose normalised text
is shorter than 2 characters is rejected. -/
theorem c5_noise_and_short_rejected :
    (∀ (w1 w2 : List Char) (a b : Char), w1.all pyIsSpace = true →
        w2.all pyIsSpace = true → pyIsSpace a = false →
        pyIsSpace b = false →
        [pyToLower a, pyToLower b] ∈ noiseWords →
        cleanTranscription (w1 ++ a :: b :: w2) = none) ∧
    (∀ x : List Char, x.all pyIsSpace = true →
        cleanTranscription x = none) ∧
    (∀ x : List Char, (cleanCore x).length < 2 →
        cleanTranscription x = none) := by
  refine ⟨?_, ?_, ?_⟩
  · intro w1 w2 a b h1 h2 ha hb hmem
    have hf := noiseWords_facts _ hmem
    have hwsa : pyIsSpace (pyToLower a) = false := by
      simpa using List.all_eq_true.mp hf.2.1 (pyToLower a) (by simp)
    have hwsb : pyIsSpace (pyToLower b) = false := by
      simpa using List.all_eq_true.mp hf.2.1 (pyToLower b) (by simp)
    have hsta : stripSetChar a = false :=
      stripSet_false_of_lower
        (by simpa using List.all_eq_true.mp hf.2.2 (pyToLower a) (by simp))
        rfl
    have hstb : stripSetChar b = false :=
      stripSet_false_of_lower
        (by simpa using List.all_eq_true.mp hf.2.2 (pyToLower b) (by simp))
        rfl
    exact c5_reject_pair _ a b
      (c5_cleanCore_pair w1 w2 a b h1 h2 ha hb hsta hstb)
      hwsa hwsb hf.1
  · intro x hx
    have hcc : cleanCore x = [] := by
      unfold cleanCore
      rw [subAll_id_of_ts_none (ts_none_of_ws x hx)]
      rw [pySplit_nil_of_ws x hx]
      rfl
    unfold cleanTranscription
    rw [hcc]
    rfl
  · intro x hlen
    unfold cleanTranscription cleanDecide
    split
    · rfl
    · dsimp only
      have hle : (pyStripWs ((cleanCore x).map pyToLower)).length < 2 := by
        have hs := pyStrip_length_le pyIsSpace ((cleanCore x).map pyToLower)
        rw [List.length_map] at hs
        unfold pyStripWs
        omega
      rw [if_pos hle]

/-- Witness for C5 at concrete inputs: `" Um "`, a whitespace-only
string, and the 1-character input `"a"`. -/
theorem c5_noise_and_short_rejected_witness :
    cleanTranscription ([' '] ++ 'U' :: 'm' :: [' ']) = none ∧
    cleanTranscription "\t \n".toList = none ∧
    (cleanCore "a".toList).length < 2 ∧
    cleanTranscription "a".toList = none :=
  ⟨c5_noise_and_short_rejected.1 [' '] [' '] 'U' 'm' (by decide) (by decide)
      (by decide) (by decide) (by decide),
   c5_noise_and_short_rejected.2.1 ("\t \n".toList) (by decide),
   by decide,
   c5_noise_and_short_rejected.2.2 ("a".toList) (by decide)⟩

/-! ## C2: single-word decisions -/

/-- Lowercasing does not change whether a character is whitespace. -/
lemma pyToLower_eq_self_of_not_upper {c : Char}
    (hu : c ∉ ['A', 'B', 'C', 'D', 'E', 'F', 'G', 'H', 'I', 'J', 'K', 'L',
      'M', 'N', 'O', 'P', 'Q', 'R', 'S', 'T', 'U', 'V', 'W', 'X', 'Y', 'Z']) :
    pyToLower c = c := by
  simp only [List.mem_cons, List.not_mem_nil, or_false, not_or] at hu
  obtain ⟨n1, n2, n3, n4, n5, n6, n7, n8, n9, n10, n11, n12, n13, n14, n15,
    n16, n17, n18, n19, n20, n21, n22, n23, n24, n25, n26⟩ := hu
  unfold pyToLower
  rw [if_neg n1, if_neg n2, if_neg n3, if_neg n4, if_neg n5, if_neg n6,
    if_neg n7, if_neg n8, if_neg n9, if_neg n10, if_neg n11, if_neg n12,
    if_neg n13, if_neg n14, if_neg n15, if_neg n16, if_neg n17, if_neg n18,
    if_neg n19, if_neg n20, if_neg n21, if_neg n22, if_neg n23, if_neg n24,
    if_neg n25, if_neg n26]

/-- Lowercasing does not change whether a character is whitespace. -/
lemma pyIsSpace_pyToLower (c : Char) :
    pyIsSpace (pyToLower c) = pyIsSpace c := by
  by_cases hu : c ∈ ['A', 'B', 'C', 'D', 'E', 'F', 'G', 'H', 'I', 'J', 'K',
    'L', 'M', 'N', 'O', 'P', 'Q', 'R', 'S', 'T', 'U', 'V', 'W', 'X', 'Y', 'Z']
  · fin_cases hu <;> decide
  · rw [pyToLower_eq_self_of_not_upper hu]

/-- Mapping a space-fixing character function commutes with `' '.join`. -/
lemma map_pyJoin (f : Char → Char) (hf : f ' ' = ' ') :
    ∀ ws : List (List Char),
      (pyJoin ws).map f = pyJoin (ws.map (List.map f)) := by
  intro ws
  induction ws with
  | nil => rfl
  | cons w ws ih =>
    cases ws with
    | nil => rfl
    | cons v vs =>
      rw [pyJoin_cons, List.map_append, List.map_cons, ih, hf]
      rfl

/-- Good word lists stay good under lowercasing. -/
lemma wordsOk_map_lower (ws : List (List Char)) (h : wordsOk ws = true) :
    wordsOk (ws.map (List.map pyToLower)) = true := by
  rw [wordsOk, List.all_eq_true] at h ⊢
  intro w hw
  rw [List.mem_map] at hw
  obtain ⟨v, hv, rfl⟩ := hw
  have hv2 := h v hv
  rw [Bool.and_eq_true] at hv2 ⊢
  constructor
  · have hne : v ≠ [] := by
      have := hv2.1
      simp only [Bool.not_eq_true'] at this
      simpa [List.isEmpty_iff] using this
    simp only [Bool.not_eq_true']
    simp [List.isEmpty_iff, hne]
  · rw [List.all_map, List.all_eq_true]
    intro c hc
    have := List.all_eq_true.mp hv2.2 c hc
    simpa [Function.comp, pyIsSpace_pyToLower] using this

/-- Refutation of C2 as stated: `"banana"` normalises to the single
word `"banana"`, which is not in the whitelist, yet the filter accepts
it (it only falls through to the digits/punctuation rule, which
alphabetic words pass). -/
theorem c2_counterexample_banana_accepted :
    pySplit (pyStripWs ((cleanCore "banana".toList).map pyToLower)) =
      ["banana".toList] ∧
    "banana".toList ∉ meaningfulSingleWords ∧
    cleanTranscription "banana".toList = some ("banana".toList) := by
  refine ⟨by decide, by decide, by decide⟩

/-- C2 (amended): when the normalised text is the single word `w`
(after lowercasing), the decision is: reject if `w` is shorter than two
characters or in the noise list; accept immediately if `w` is in the
whitelist; otherwise reject exactly when the normalised text consists
solely of digits, whitespace and `{. , ! ? ; :}` — so non-whitelisted
single words with alphabetic content are accepted, not rejected. -/
theorem c2_single_word_decision (x w : List Char)
    (h : pySplit (pyStripWs ((cleanCore x).map pyToLower)) = [w]) :
    cleanTranscription x =
      if w.length < 2 ∨ w ∈ falsePositives then none
      else if w ∈ meaningfulSingleWords then some (cleanCore x)
      else if onlyDigitsPunct (cleanCore x) then none
      else some (cleanCore x) := by
  obtain ⟨ws, hok, hcc⟩ := cleanCore_image x
  have hmap : (cleanCore x).map pyToLower =
      pyJoin (ws.map (List.map pyToLower)) := by
    rw [hcc]
    exact map_pyJoin pyToLower (by decide) ws
  obtain ⟨ws2, hok3, hstr⟩ := pyStrip_pyJoin pyIsSpace (by decide) _
    (wordsOk_map_lower ws hok)
  have htl : pyStripWs ((cleanCore x).map pyToLower) = pyJoin ws2 := by
    unfold pyStripWs
    rw [hmap]
    exact hstr
  have hws2 : ws2 = [w] := by
    rw [htl, pySplit_pyJoin ws2 hok3] at h
    exact h
  have htlw : pyStripWs ((cleanCore x).map pyToLower) = w := by
    rw [htl, hws2]
    rfl
  have hspw : pySplit w = [w] := by
    have hokw : wordsOk [w] = true := by
      rw [← hws2]
      exact hok3
    have := pySplit_pyJoin [w] hokw
    simpa [pyJoin] using this
  have hwne : w ≠ [] := by
    rw [hws2] at hok3
    rw [wordsOk, List.all_cons, Bool.and_eq_true] at hok3
    have h1 := hok3.1
    rw [Bool.and_eq_true] at h1
    have := h1.1
    simp only [Bool.not_eq_true'] at this
    simpa [List.isEmpty_iff] using this
  have htne : cleanCore x ≠ [] := by
    intro h0
    rw [h0] at htlw
    exact hwne (by simpa using htlw.symm)
  unfold cleanTranscription cleanDecide
  rw [if_neg htne]
  dsimp only
  rw [htlw, hspw]
  by_cases h1 : w.length < 2
  · rw [if_pos h1, if_pos (Or.inl h1)]
  · by_cases h2 : w ∈ falsePositives
    · rw [if_neg h1, if_pos h2, if_pos (Or.inr h2)]
    · rw [if_neg h1, if_neg h2,
        if_neg (not_or.mpr ⟨h1, h2⟩)]
      dsimp only
      rw [if_neg h2]

/-- Witness for C2 (amended): `"hello"` is a whitelisted single word
and is accepted immediately. -/
theorem c2_single_word_decision_witness :
    cleanTranscription "hello".toList =
      (if ("hello".toList).length < 2 ∨ "hello".toList ∈ falsePositives
        then none
       else if "hello".toList ∈ meaningfulSingleWords then
        some (cleanCore "hello".toList)
       else if onlyDigitsPunct (cleanCore "hello".toList) then none
       else some (cleanCore "hello".toList)) ∧
    cleanTranscription "hello".toList = some ("hello".toList) :=
  ⟨c2_single_word_decision ("hello".toList) ("hello".toList) (by decide),
   by decide⟩

end Voice2Clip
